import Mathlib

/-!
Shallow embedding of `src/traffic_counter/core.py`.

Timestamps are modelled as `Int` epoch seconds (`datetime` values at second
precision, as the spec requires); `timedelta(minutes=30)` becomes the constant
`HALF_HOUR = 1800` seconds.  Python exceptions become `Except TCError`, with one
`TCError` constructor per distinct `raise` site of the source, carrying exactly
the data that the corresponding Python error message interpolates.
-/

/-- One error constructor per distinct raise site in core.py:
`format`, `badTimestamp`, `badCount` are the three parse errors of
`_parse_line` (each message names the 1-based line number), `negativeCars` is
the `TrafficRecord.__post_init__` validation error (its message carries no line
number), `sizeNotPositive` is raised by `contiguous_windows`,
`windowSizeNotPositive` and `topLimitNotPositive` by `analyse_stream`, and
`noWindow` by `quietest_period`. -/
inductive TCError where
  | format (line : Nat) (raw : String)
  | badTimestamp (line : Nat) (token : String)
  | badCount (line : Nat) (token : String)
  | negativeCars
  | sizeNotPositive
  | windowSizeNotPositive
  | topLimitNotPositive
  | noWindow
deriving DecidableEq, Repr

/-- The line number interpolated into the error message, when the message has
one (the three `_parse_line` messages do; `negativeCars` and the
configuration errors do not). -/
def TCError.lineNumber : TCError → Option Nat
  | .format n _ => some n
  | .badTimestamp n _ => some n
  | .badCount n _ => some n
  | _ => none

/-- The dataclass `TrafficRecord`: a timestamp (epoch seconds) and a car
count.  The `cars >= 0` validation of `__post_init__` is performed where the
source constructs records from parsed input (`_parse_line`). -/
structure TrafficRecord where
  timestamp : Int
  cars : Int
deriving DecidableEq, Repr

/-- timedelta(minutes=30) in seconds. -/
def HALF_HOUR : Int := 1800

/-- The dataclass `AnalysisResult`. -/
structure AnalysisResult where
  total : Int
  per_day : List (String × Int)
  top_half_hours : List TrafficRecord
  quietest_window : Option (List TrafficRecord)
deriving DecidableEq, Repr

/-! String helpers modelling the Python string operations used by the parser. -/

/-- The ASCII whitespace characters `str.strip` and `str.split` treat as
whitespace (the inputs in scope are ASCII). -/
def isPySpace (c : Char) : Bool :=
  c = ' ' || c = '\t' || c = '\n' || c = '\r' || c = '\x0b' || c = '\x0c'

/-- Python `raw.strip()`. -/
def pyStrip (s : String) : String :=
  String.mk (((s.data.dropWhile isPySpace).reverse.dropWhile isPySpace).reverse)

def splitOnceAux (acc : List Char) : List Char → Option (List Char × List Char)
  | [] => none
  | c :: rest =>
    if isPySpace c then some (acc.reverse, rest.dropWhile isPySpace)
    else splitOnceAux (c :: acc) rest

/-- Python `line.split(maxsplit=1)` unpacked into two fields, applied (as in
the source) only to stripped text: `none` models the `ValueError` of unpacking
a single-element split (no whitespace in the line); otherwise the pair is the
text before the first whitespace run and the remainder after it. -/
def pySplitOnce (s : String) : Option (String × String) :=
  (splitOnceAux [] s.data).map (fun p => (String.mk p.1, String.mk p.2))

def isDigitChar (c : Char) : Bool := '0' ≤ c && c ≤ '9'

def digitsToNat (ds : List Char) : Nat :=
  ds.foldl (fun a c => a * 10 + (c.toNat - 48)) 0

/-- Python `int(cars_str)` restricted to an optional sign followed by decimal
digits, the integer format the spec's count field uses. -/
def pyParseInt (s : String) : Option Int :=
  match s.data with
  | '+' :: ds => if ds ≠ [] ∧ ds.all isDigitChar then some (digitsToNat ds) else none
  | '-' :: ds => if ds ≠ [] ∧ ds.all isDigitChar then some (-(digitsToNat ds : Int)) else none
  | ds => if ds ≠ [] ∧ ds.all isDigitChar then some (digitsToNat ds) else none

/-! Calendar arithmetic: proleptic-Gregorian conversions between civil dates
and days since 1970-01-01, the standard era-based algorithms. -/

def leapYear (y : Nat) : Bool := y % 4 = 0 && (y % 100 ≠ 0 || y % 400 = 0)

def daysInMonth (y m : Nat) : Nat :=
  if m = 2 then (if leapYear y then 29 else 28)
  else if m = 4 || m = 6 || m = 9 || m = 11 then 30
  else 31

/-- Days from 1970-01-01 to the civil date y-m-d (valid dates, y ≥ 1). -/
def daysFromCivil (y m d : Nat) : Int :=
  let yy := if m ≤ 2 then y - 1 else y
  let era := yy / 400
  let yoe := yy % 400
  let mp := if 2 < m then m - 3 else m + 9
  let doy := (153 * mp + 2) / 5 + (d - 1)
  let doe := yoe * 365 + yoe / 4 - yoe / 100 + doy
  (era * 146097 + doe : Int) - 719468

/-- Civil date (y, m, d) of the day `z` days after 1970-01-01. -/
def civilFromDays (z : Int) : Nat × Nat × Nat :=
  let zz := z + 719468
  let era := Int.fdiv zz 146097
  let doe := (zz - era * 146097).toNat
  let yoe := (doe - doe / 1460 + doe / 36524 - doe / 146096) / 365
  let doy := doe - (365 * yoe + yoe / 4 - yoe / 100)
  let mp := (5 * doy + 2) / 153
  let d := doy - (153 * mp + 2) / 5 + 1
  let m := if mp < 10 then mp + 3 else mp - 9
  let y := (era * 400 + yoe + (if m ≤ 2 then 1 else 0)).toNat
  (y, m, d)

def padNum (width n : Nat) : String :=
  let s := toString n
  String.mk (List.replicate (width - s.length) '0') ++ s

/-- Python `record.timestamp.date().isoformat()`: the zero-padded
YYYY-MM-DD string of the timestamp's calendar date. -/
def dayString (ts : Int) : String :=
  let c := civilFromDays (Int.fdiv ts 86400)
  padNum 4 c.1 ++ "-" ++ padNum 2 c.2.1 ++ "-" ++ padNum 2 c.2.2

def expectChar (c : Char) : List Char → Option (List Char)
  | [] => none
  | x :: rest => if x = c then some rest else none

def takeDigits (k : Nat) (cs : List Char) : Option (Nat × List Char) :=
  let ds := cs.take k
  if ds.length = k ∧ ds.all isDigitChar then some (digitsToNat ds, cs.drop k) else none

def parseTimePart (cs : List Char) : Option (Nat × Nat × Nat) := do
  let (h, cs1) ← takeDigits 2 cs
  let cs2 ← expectChar ':' cs1
  let (mi, cs3) ← takeDigits 2 cs2
  match cs3 with
  | [] => if h < 24 ∧ mi < 60 then some (h, mi, 0) else none
  | _ => do
    let cs4 ← expectChar ':' cs3
    let (sec, cs5) ← takeDigits 2 cs4
    if cs5 = [] ∧ h < 24 ∧ mi < 60 ∧ sec < 60 then some (h, mi, sec) else none

/-- Python `datetime.fromisoformat(timestamp_str)` restricted to the formats
the spec admits: a YYYY-MM-DD date, optionally followed by `T` and a time
HH:MM or HH:MM:SS, at second precision with no timezone.  The result is the
datetime's epoch-second value; `none` models the `ValueError`. -/
def fromisoformat (s : String) : Option Int := do
  let cs := s.data
  let (y, cs1) ← takeDigits 4 cs
  let cs2 ← expectChar '-' cs1
  let (m, cs3) ← takeDigits 2 cs2
  let cs4 ← expectChar '-' cs3
  let (d, cs5) ← takeDigits 2 cs4
  if 1 ≤ y ∧ y ≤ 9999 ∧ 1 ≤ m ∧ m ≤ 12 ∧ 1 ≤ d ∧ d ≤ daysInMonth y m then
    match cs5 with
    | [] => some (daysFromCivil y m d * 86400)
    | sep :: rest =>
      if sep = 'T' then do
        let (h, mi, sec) ← parseTimePart rest
        some (daysFromCivil y m d * 86400 + ((h * 3600 + mi * 60 + sec : Nat) : Int))
      else none
  else none

/-! The parser. -/

/-- core.py `_parse_line`: strip the raw line, skip it when blank, split it
into a timestamp token and a count token, parse both, and validate `cars >= 0`
(the `TrafficRecord.__post_init__` check, raised while constructing the
record). -/
def _parse_line (raw : String) (number : Nat) : Except TCError (Option TrafficRecord) :=
  let line := pyStrip raw
  if line = "" then .ok none
  else
    match pySplitOnce line with
    | none => .error (.format number raw)
    | some (timestamp_str, cars_str) =>
      match fromisoformat timestamp_str with
      | none => .error (.badTimestamp number timestamp_str)
      | some timestamp =>
        match pyParseInt cars_str with
        | none => .error (.badCount number cars_str)
        | some cars =>
          if cars < 0 then .error .negativeCars
          else .ok (some ⟨timestamp, cars⟩)

/-- Chronological comparison used by `records.sort(key=lambda r: r.timestamp)`. -/
def leTs (a b : TrafficRecord) : Prop := a.timestamp ≤ b.timestamp

instance : DecidableRel leTs :=
  fun a b => inferInstanceAs (Decidable (a.timestamp ≤ b.timestamp))

instance : IsTotal TrafficRecord leTs :=
  ⟨fun a b => Int.le_total a.timestamp b.timestamp⟩

instance : IsTrans TrafficRecord leTs :=
  ⟨fun _ _ _ h1 h2 => Int.le_trans h1 h2⟩

/-- The numbered parsing loop of `parse_records` (also the per-line structure
of `analyse_stream`'s loop): parse each line with its 1-based number, abort on
the first error, skip blank lines, and collect records in input order. -/
def parseLoop (number : Nat) : List String → Except TCError (List TrafficRecord)
  | [] => .ok []
  | raw :: rest =>
    match _parse_line raw number with
    | .error e => .error e
    | .ok none => parseLoop (number + 1) rest
    | .ok (some record) => (parseLoop (number + 1) rest).map (record :: ·)

/-- core.py `parse_records`: parse all lines, then stable-sort the records
ascending by timestamp (Python's `list.sort` is stable; `insertionSort` is the
stable sort of the embedding). -/
def parse_records (lines : List String) : Except TCError (List TrafficRecord) :=
  (parseLoop 1 lines).map (List.insertionSort leTs)

/-! The batch aggregation passes. -/

/-- core.py `total_cars`. -/
def total_cars (records : List TrafficRecord) : Int :=
  records.foldl (fun acc r => acc + r.cars) 0

/-- Python `daily[day] = daily.get(day, 0) + cars` on an insertion-ordered
dict, modelled as an association list: an existing key is updated in place, a
new key is appended at the end. -/
def dictAdd : List (String × Int) → String → Int → List (String × Int)
  | [], day, cars => [(day, cars)]
  | (k, v) :: rest, day, cars =>
    if k = day then (k, v + cars) :: rest else (k, v) :: dictAdd rest day cars

/-- Python tuple comparison on `(day, total)` pairs, used by
`sorted(daily.items())`. -/
def lePair (a b : String × Int) : Prop := a.1 < b.1 ∨ (a.1 = b.1 ∧ a.2 ≤ b.2)

instance : DecidableRel lePair :=
  fun a b => inferInstanceAs (Decidable (a.1 < b.1 ∨ (a.1 = b.1 ∧ a.2 ≤ b.2)))

instance : IsTotal (String × Int) lePair := by
  constructor
  intro a b
  rcases lt_trichotomy a.1 b.1 with h | h | h
  · exact Or.inl (Or.inl h)
  · rcases le_total a.2 b.2 with h2 | h2
    · exact Or.inl (Or.inr ⟨h, h2⟩)
    · exact Or.inr (Or.inr ⟨h.symm, h2⟩)
  · exact Or.inr (Or.inl h)

instance : IsTrans (String × Int) lePair := by
  constructor
  intro a b c hab hbc
  rcases hab with h1 | ⟨e1, l1⟩
  · rcases hbc with h2 | ⟨e2, _⟩
    · exact Or.inl (h1.trans h2)
    · exact Or.inl (e2 ▸ h1)
  · rcases hbc with h2 | ⟨e2, l2⟩
    · exact Or.inl (e1 ▸ h2)
    · exact Or.inr ⟨e1.trans e2, l1.trans l2⟩

instance : IsAntisymm (String × Int) lePair := by
  constructor
  intro a b hab hba
  rcases hab with h1 | ⟨e1, l1⟩
  · rcases hba with h2 | ⟨e2, _⟩
    · exact absurd h2 (lt_asymm h1)
    · exact absurd (e2 ▸ h1) (lt_irrefl _)
  · rcases hba with h2 | ⟨_, l2⟩
    · exact absurd (e1 ▸ h2) (lt_irrefl _)
    · exact Prod.ext e1 (le_antisymm l1 l2)

/-- core.py `totals_by_day`: group car counts by the ISO date string of each
record's timestamp (dict insertion order), then `sorted(daily.items())`. -/
def totals_by_day (records : List TrafficRecord) : List (String × Int) :=
  List.insertionSort lePair
    (records.foldl (fun daily r => dictAdd daily (dayString r.timestamp) r.cars) [])

/-- The sort key `(-record.cars, record.timestamp)` of `top_half_hours`, as
the relation it induces: `a` sorts no later than `b`. -/
def leKey (a b : TrafficRecord) : Prop :=
  b.cars < a.cars ∨ (a.cars = b.cars ∧ a.timestamp ≤ b.timestamp)

instance : DecidableRel leKey :=
  fun a b => inferInstanceAs (Decidable (b.cars < a.cars ∨ (a.cars = b.cars ∧ a.timestamp ≤ b.timestamp)))

instance : IsTotal TrafficRecord leKey := by
  constructor
  intro a b
  rcases lt_trichotomy a.cars b.cars with h | h | h
  · exact Or.inr (Or.inl h)
  · rcases Int.le_total a.timestamp b.timestamp with h2 | h2
    · exact Or.inl (Or.inr ⟨h, h2⟩)
    · exact Or.inr (Or.inr ⟨h.symm, h2⟩)
  · exact Or.inl (Or.inl h)

instance : IsTrans TrafficRecord leKey := by
  constructor
  intro a b c hab hbc
  rcases hab with h1 | ⟨e1, l1⟩
  · rcases hbc with h2 | ⟨e2, _⟩
    · exact Or.inl (h2.trans h1)
    · exact Or.inl (e2 ▸ h1)
  · rcases hbc with h2 | ⟨e2, l2⟩
    · exact Or.inl (e1 ▸ h2)
    · exact Or.inr ⟨e1.trans e2, l1.trans l2⟩

instance : IsAntisymm TrafficRecord leKey := by
  constructor
  intro a b hab hba
  rcases hab with h1 | ⟨e1, l1⟩
  · rcases hba with h2 | ⟨e2, _⟩
    · exact absurd h2 (lt_asymm h1)
    · exact absurd (e2 ▸ h1) (lt_irrefl _)
  · rcases hba with h2 | ⟨_, l2⟩
    · exact absurd (e1 ▸ h2) (lt_irrefl _)
    · cases a; cases b; simp only [TrafficRecord.mk.injEq]
      exact ⟨le_antisymm l1 l2, e1⟩

/-- Python slicing `l[:n]`: for nonnegative `n` the first `n` elements, for
negative `n` all but the last `-n` elements (clamped, never an error). -/
def pyTake (n : Int) (l : List α) : List α :=
  if 0 ≤ n then l.take n.toNat else l.take ((l.length + n).toNat)

/-- core.py `top_half_hours`: sort by `(-cars, timestamp)` and slice the first
`limit` entries; note the source performs no validation of `limit`. -/
def top_half_hours (records : List TrafficRecord) (limit : Int) : List TrafficRecord :=
  pyTake limit (List.insertionSort leKey records)

/-! The window scanner. -/

/-- Two records are one sampling interval apart:
`b.timestamp - a.timestamp == HALF_HOUR`. -/
def isStep (a b : TrafficRecord) : Prop := b.timestamp - a.timestamp = HALF_HOUR

instance : DecidableRel isStep :=
  fun a b => inferInstanceAs (Decidable (b.timestamp - a.timestamp = HALF_HOUR))

/-- The `all(...)` gap check of `contiguous_windows`: every consecutive pair
of the window is exactly 30 minutes apart. -/
def chainedB : List TrafficRecord → Bool
  | [] => true
  | [_] => true
  | a :: b :: rest =>
    decide (b.timestamp - a.timestamp = HALF_HOUR) && chainedB (b :: rest)

theorem chainedB_iff : ∀ w : List TrafficRecord,
    chainedB w = true ↔ List.Chain' isStep w
  | [] => by simp [chainedB]
  | [a] => by simp [chainedB]
  | a :: b :: rest => by
    rw [chainedB, Bool.and_eq_true, decide_eq_true_eq, chainedB_iff (b :: rest),
      List.chain'_cons]
    exact Iff.rfl

/-- core.py `contiguous_windows`: raise when `size <= 0`, otherwise yield, for
each start position, the length-`size` slice when its spacing check passes.
The Nat expression `records.length + 1 - size.toNat` equals Python's
`range(len(records) - size + 1)` bound (empty when there are fewer than `size`
records). -/
def contiguous_windows (records : List TrafficRecord) (size : Int) :
    Except TCError (List (List TrafficRecord)) :=
  if size ≤ 0 then .error .sizeNotPositive
  else .ok ((List.range (records.length + 1 - size.toNat)).filterMap (fun start =>
    let window := (records.drop start).take size.toNat
    if chainedB window then some window else none))

/-- The first record's timestamp, `window[0].timestamp` (windows are always
nonempty where this is used). -/
def headTs : List TrafficRecord → Int
  | [] => 0
  | r :: _ => r.timestamp

/-- `sum(record.cars for record in window)`. -/
def sumCars (w : List TrafficRecord) : Int := w.foldl (fun acc r => acc + r.cars) 0

/-- The shared best-window update of `quietest_period` and `analyse_stream`:
replace the current best when the candidate's total is strictly smaller, or
equal with a strictly earlier start. -/
def considerWindow (best : Option (List TrafficRecord × Int)) (w : List TrafficRecord) :
    Option (List TrafficRecord × Int) :=
  let wt := sumCars w
  match best with
  | none => some (w, wt)
  | some (bw, bt) =>
    if wt < bt ∨ (wt = bt ∧ headTs w < headTs bw) then some (w, wt) else some (bw, bt)

/-- core.py `quietest_period`: fold the candidate windows through the best
update; raise `noWindow` when no candidate exists. -/
def quietest_period (records : List TrafficRecord) (size : Int) :
    Except TCError (List TrafficRecord) := do
  let ws ← contiguous_windows records size
  match ws.foldl considerWindow none with
  | none => .error .noWindow
  | some (w, _) => .ok w

/-! The streaming facade. -/

/-- The mutable state of `analyse_stream`'s loop; `best` pairs the source's
`best_window` and `best_total` variables, which are always assigned together. -/
structure StreamState where
  total : Int
  daily : List (String × Int)
  top : List TrafficRecord
  buffer : List TrafficRecord
  best : Option (List TrafficRecord × Int)
deriving DecidableEq, Repr

def initState : StreamState := ⟨0, [], [], [], none⟩

/-- The top-k maintenance of `analyse_stream`: append the record, re-sort by
the `(-cars, timestamp)` key, and pop the last entry when the buffer exceeds
`limit`. -/
def stepTop (limit : Int) (top : List TrafficRecord) (r : TrafficRecord) :
    List TrafficRecord :=
  let t := List.insertionSort leKey (top ++ [r])
  if limit < (t.length : Int) then t.dropLast else t

/-- The rolling-buffer maintenance of `analyse_stream`: extend the buffer when
the new record is exactly 30 minutes after its last entry (dropping the front
when it exceeds `size`), otherwise restart the buffer at the new record. -/
def stepBuffer (size : Int) (buffer : List TrafficRecord) (r : TrafficRecord) :
    List TrafficRecord :=
  match buffer.getLast? with
  | none => [r]
  | some last =>
    if r.timestamp - last.timestamp = HALF_HOUR then
      if size < ((buffer ++ [r]).length : Int) then (buffer ++ [r]).tail
      else buffer ++ [r]
    else [r]

/-- One record's worth of `analyse_stream`'s loop body: accumulate the total,
the per-day dict, the top buffer, the rolling window buffer, and the best
window when the buffer reaches exactly `size` entries. -/
def stepRecord (size limit : Int) (st : StreamState) (r : TrafficRecord) : StreamState :=
  let buffer := stepBuffer size st.buffer r
  { total := st.total + r.cars
    daily := dictAdd st.daily (dayString r.timestamp) r.cars
    top := stepTop limit st.top r
    buffer := buffer
    best := if (buffer.length : Int) = size then considerWindow st.best buffer else st.best }

/-- The numbered line loop of `analyse_stream`: parse each line, abort on the
first error, skip blanks, and feed each record to `stepRecord`. -/
def streamLoop (size limit : Int) (number : Nat) (st : StreamState) :
    List String → Except TCError StreamState
  | [] => .ok st
  | raw :: rest =>
    match _parse_line raw number with
    | .error e => .error e
    | .ok none => streamLoop size limit (number + 1) st rest
    | .ok (some r) => streamLoop size limit (number + 1) (stepRecord size limit st r) rest

/-- The result assembly at the end of `analyse_stream`. -/
def finalize (limit : Int) (st : StreamState) : AnalysisResult :=
  { total := st.total
    per_day := List.insertionSort lePair st.daily
    top_half_hours := pyTake limit st.top
    quietest_window := st.best.map (·.1) }

/-- core.py `analyse_stream`: validate the configuration before consuming any
input, then run the single-pass loop and assemble the result. -/
def analyse_stream (lines : List String) (window_size top_limit : Int) :
    Except TCError AnalysisResult :=
  if window_size ≤ 0 then .error .windowSizeNotPositive
  else if top_limit ≤ 0 then .error .topLimitNotPositive
  else (streamLoop window_size top_limit 1 initState lines).map (finalize top_limit)

/-! Lemmas about the top-k selector. -/

theorem insertionSort_sorted_append {α : Type} (le : α → α → Prop) [DecidableRel le]
    [IsTotal α le] [IsTrans α le] [IsAntisymm α le]
    (buf : List α) (r : α) (hs : List.Sorted le buf) :
    List.insertionSort le (buf ++ [r]) = List.orderedInsert le r buf := by
  refine List.eq_of_perm_of_sorted ?_ (List.sorted_insertionSort le _)
    (List.Sorted.orderedInsert r buf hs)
  exact ((List.perm_insertionSort le _).trans (List.perm_append_singleton r buf)).trans
    (List.perm_orderedInsert le r buf).symm

theorem insertionSort_append_singleton {α : Type} (le : α → α → Prop) [DecidableRel le]
    [IsTotal α le] [IsTrans α le] [IsAntisymm α le] (p : List α) (r : α) :
    List.insertionSort le (p ++ [r]) = List.orderedInsert le r (List.insertionSort le p) := by
  refine List.eq_of_perm_of_sorted ?_ (List.sorted_insertionSort le _)
    (List.Sorted.orderedInsert r _ (List.sorted_insertionSort le p))
  refine ((List.perm_insertionSort le _).trans (List.perm_append_singleton r p)).trans ?_
  exact ((List.perm_orderedInsert le r _).trans ((List.perm_insertionSort le p).cons r)).symm

theorem take_orderedInsert {α : Type} (le : α → α → Prop) [DecidableRel le] (a : α) :
    ∀ (s : List α) (k : Nat),
      (List.orderedInsert le a s).take k = (List.orderedInsert le a (s.take k)).take k := by
  intro s
  induction s with
  | nil => intro k; simp
  | cons b s' ih =>
    intro k
    match k with
    | 0 => simp
    | k + 1 =>
      by_cases h : le a b
      · match k with
        | 0 => simp [List.orderedInsert, if_pos h]
        | m + 1 =>
          simp only [List.orderedInsert, List.take_succ_cons, if_pos h, List.take_take]
          have : m ⊓ (m + 1) = m := Nat.min_eq_left (Nat.le_succ m)
          rw [this]
      · simp only [List.orderedInsert, List.take_succ_cons, if_neg h]
        rw [ih k]

theorem foldl_stepTop_eq (limit : Int) (hl : 0 < limit) (records : List TrafficRecord) :
    records.foldl (stepTop limit) [] = (List.insertionSort leKey records).take limit.toNat := by
  have hk : ((limit.toNat : Int)) = limit := Int.toNat_of_nonneg hl.le
  induction records using List.reverseRecOn with
  | nil => simp
  | append_singleton p r ih =>
    rw [List.foldl_append, List.foldl_cons, List.foldl_nil, ih]
    set k := limit.toNat with hkdef
    set S := List.insertionSort leKey p with hS
    have hSorted : List.Sorted leKey S := List.sorted_insertionSort leKey p
    have hBufSorted : List.Sorted leKey (S.take k) :=
      List.Pairwise.sublist (List.take_sublist _ _) hSorted
    have ht : List.insertionSort leKey (S.take k ++ [r]) = List.orderedInsert leKey r (S.take k) :=
      insertionSort_sorted_append leKey (S.take k) r hBufSorted
    have hgoal : (List.insertionSort leKey (p ++ [r])).take k =
        (List.orderedInsert leKey r (S.take k)).take k := by
      rw [insertionSort_append_singleton leKey p r, ← hS, take_orderedInsert leKey r S k]
    rw [hgoal, stepTop, ht]
    have hlen : (List.orderedInsert leKey r (S.take k)).length = (S.take k).length + 1 :=
      List.orderedInsert_length leKey (S.take k) r
    have hlen2 : (S.take k).length ≤ k := by
      rw [List.length_take]; exact Nat.min_le_left _ _
    by_cases hcmp : limit < ((List.orderedInsert leKey r (S.take k)).length : Int)
    · rw [if_pos hcmp]
      have hklt : k < (List.orderedInsert leKey r (S.take k)).length := by
        have := hcmp; rw [← hk] at this; exact_mod_cast this
      have hlenEq : (List.orderedInsert leKey r (S.take k)).length = k + 1 := by omega
      rw [List.dropLast_eq_take, hlenEq, Nat.add_sub_cancel]
    · rw [if_neg hcmp]
      have hkge : (List.orderedInsert leKey r (S.take k)).length ≤ k := by
        have := not_lt.mp hcmp; rw [← hk] at this; exact_mod_cast this
      exact (List.take_of_length_le hkge).symm

/-- C5: for every sequence of records in any order and every positive limit,
the streaming top-k maintenance (append, re-sort by the key
(-cars, timestamp), drop the last entry when the buffer exceeds the limit)
yields the same final buffer as the batch form `top_half_hours`, which sorts
all records by that key and takes the first `limit` entries. -/
theorem C5_stream_topk_eq_batch (records : List TrafficRecord) (limit : Int)
    (hl : 0 < limit) :
    records.foldl (stepTop limit) [] = top_half_hours records limit := by
  rw [foldl_stepTop_eq limit hl records, top_half_hours, pyTake, if_pos hl.le]

/-- Witness for C5 at a concrete out-of-order input and limit 2. -/
theorem C5_witness :
    [(⟨3600, 2⟩ : TrafficRecord), ⟨0, 5⟩, ⟨1800, 5⟩].foldl (stepTop 2) [] =
      top_half_hours [⟨3600, 2⟩, ⟨0, 5⟩, ⟨1800, 5⟩] 2 :=
  C5_stream_topk_eq_batch [⟨3600, 2⟩, ⟨0, 5⟩, ⟨1800, 5⟩] 2 (by decide)

/-- C6: for every record sequence and positive limit, the batch top-k result
has length min(limit, n), is sorted ascending by the key (-cars, timestamp),
and every record of the input excluded from the result has a key no smaller
than the key of every included record. -/
theorem C6_topk_shape (records : List TrafficRecord) (limit : Int) (hl : 0 < limit) :
    (top_half_hours records limit).length = min limit.toNat records.length ∧
    List.Sorted leKey (top_half_hours records limit) ∧
    ∀ x ∈ records, x ∉ top_half_hours records limit →
      ∀ y ∈ top_half_hours records limit, leKey y x := by
  have hTH : top_half_hours records limit =
      (List.insertionSort leKey records).take limit.toNat := by
    rw [top_half_hours, pyTake, if_pos hl.le]
  refine ⟨?_, ?_, ?_⟩
  · rw [hTH, List.length_take, List.length_insertionSort]
  · rw [hTH]
    exact List.Pairwise.sublist (List.take_sublist _ _)
      (List.sorted_insertionSort leKey records)
  · intro x hx hnx y hy
    set S := List.insertionSort leKey records with hS
    have hmem : x ∈ S := (List.perm_insertionSort leKey records).mem_iff.mpr hx
    have hsorted : List.Pairwise leKey S := List.sorted_insertionSort leKey records
    have hsplit : S.take limit.toNat ++ S.drop limit.toNat = S := List.take_append_drop _ _
    rw [← hsplit] at hsorted hmem
    rcases List.mem_append.mp hmem with h | h
    · exact absurd (by rw [hTH]; exact h) hnx
    · exact (List.pairwise_append.mp hsorted).2.2 y (by rw [hTH] at hy; exact hy) x h

/-- Witness for C6 at a concrete two-record input and limit 1. -/
theorem C6_witness :
    (top_half_hours [(⟨0, 5⟩ : TrafficRecord), ⟨1800, 7⟩] 1).length =
        min (1 : Int).toNat [(⟨0, 5⟩ : TrafficRecord), ⟨1800, 7⟩].length ∧
      List.Sorted leKey (top_half_hours [(⟨0, 5⟩ : TrafficRecord), ⟨1800, 7⟩] 1) ∧
      ∀ x ∈ [(⟨0, 5⟩ : TrafficRecord), ⟨1800, 7⟩],
        x ∉ top_half_hours [(⟨0, 5⟩ : TrafficRecord), ⟨1800, 7⟩] 1 →
        ∀ y ∈ top_half_hours [(⟨0, 5⟩ : TrafficRecord), ⟨1800, 7⟩] 1, leKey y x :=
  C6_topk_shape [⟨0, 5⟩, ⟨1800, 7⟩] 1 (by decide)

instance {ε α : Type} [DecidableEq ε] [DecidableEq α] : DecidableEq (Except ε α) := fun a b =>
  match a, b with
  | .ok x, .ok y => decidable_of_iff (x = y) (by simp)
  | .error x, .error y => decidable_of_iff (x = y) (by simp)
  | .ok _, .error _ => isFalse (by simp)
  | .error _, .ok _ => isFalse (by simp)

/-! Relating the streaming loop to the batch parsing loop: both parse the same
numbered lines and abort on the same first error. -/

theorem streamLoop_eq_parseLoop (size limit : Int) :
    ∀ (ls : List String) (n : Nat) (st : StreamState),
      streamLoop size limit n st ls =
        (parseLoop n ls).map (fun us => us.foldl (stepRecord size limit) st) := by
  intro ls
  induction ls with
  | nil => intro n st; rfl
  | cons raw rest ih =>
    intro n st
    cases h : _parse_line raw n with
    | error e => simp [streamLoop, parseLoop, h, Except.map]
    | ok v =>
      cases v with
      | none => simp [streamLoop, parseLoop, h, ih]
      | some r =>
        simp only [streamLoop, parseLoop, h, ih]
        cases hp : parseLoop (n + 1) rest <;> simp [Except.map]

theorem analyse_stream_eq_parseLoop (lines : List String) (size limit : Int)
    (hs : 0 < size) (hl : 0 < limit) :
    analyse_stream lines size limit =
      (parseLoop 1 lines).map
        (fun us => finalize limit (us.foldl (stepRecord size limit) initState)) := by
  rw [analyse_stream, if_neg (not_le.mpr hs), if_neg (not_le.mpr hl),
    streamLoop_eq_parseLoop]
  cases parseLoop 1 lines <;> rfl

/-! Component projections of the streaming fold. -/

theorem foldl_stepRecord_total (size limit : Int) :
    ∀ (us : List TrafficRecord) (st : StreamState),
      (us.foldl (stepRecord size limit) st).total =
        us.foldl (fun a r => a + r.cars) st.total := by
  intro us
  induction us with
  | nil => intro st; rfl
  | cons r rest ih => intro st; rw [List.foldl_cons, List.foldl_cons, ih]; rfl

theorem foldl_stepRecord_daily (size limit : Int) :
    ∀ (us : List TrafficRecord) (st : StreamState),
      (us.foldl (stepRecord size limit) st).daily =
        us.foldl (fun d r => dictAdd d (dayString r.timestamp) r.cars) st.daily := by
  intro us
  induction us with
  | nil => intro st; rfl
  | cons r rest ih => intro st; rw [List.foldl_cons, List.foldl_cons, ih]; rfl

theorem foldl_stepRecord_top (size limit : Int) :
    ∀ (us : List TrafficRecord) (st : StreamState),
      (us.foldl (stepRecord size limit) st).top = us.foldl (stepTop limit) st.top := by
  intro us
  induction us with
  | nil => intro st; rfl
  | cons r rest ih => intro st; rw [List.foldl_cons, List.foldl_cons, ih]; rfl

/-- The paired buffer-and-best component of one streaming step. -/
def stepBufBest (size : Int) (pb : List TrafficRecord × Option (List TrafficRecord × Int))
    (r : TrafficRecord) : List TrafficRecord × Option (List TrafficRecord × Int) :=
  let b := stepBuffer size pb.1 r
  (b, if (b.length : Int) = size then considerWindow pb.2 b else pb.2)

theorem foldl_stepRecord_bufbest (size limit : Int) :
    ∀ (us : List TrafficRecord) (st : StreamState),
      ((us.foldl (stepRecord size limit) st).buffer,
        (us.foldl (stepRecord size limit) st).best) =
        us.foldl (stepBufBest size) (st.buffer, st.best) := by
  intro us
  induction us with
  | nil => intro st; rfl
  | cons r rest ih => intro st; rw [List.foldl_cons, List.foldl_cons, ih]; rfl

/-! Facts about single-line parsing. -/

theorem parse_line_none_iff (raw : String) (n : Nat) :
    _parse_line raw n = .ok none ↔ pyStrip raw = "" := by
  unfold _parse_line
  by_cases h : pyStrip raw = ""
  · simp [h]
  · simp only [if_neg h]
    constructor
    · intro hc
      exfalso
      split at hc
      · exact Except.noConfusion hc
      · split at hc
        · exact Except.noConfusion hc
        · split at hc
          · exact Except.noConfusion hc
          · split at hc
            · exact Except.noConfusion hc
            · exact Option.noConfusion (Except.ok.inj hc)
    · intro hc; exact absurd hc h

theorem parse_line_error_shape (raw : String) (n : Nat) (e : TCError)
    (h : _parse_line raw n = .error e) :
    e = .negativeCars ∨ e.lineNumber = some n := by
  unfold _parse_line at h
  by_cases hb : pyStrip raw = ""
  · rw [if_pos hb] at h; exact Except.noConfusion h
  · rw [if_neg hb] at h
    split at h
    · exact Or.inr (by rw [← Except.error.inj h]; rfl)
    · split at h
      · exact Or.inr (by rw [← Except.error.inj h]; rfl)
      · split at h
        · exact Or.inr (by rw [← Except.error.inj h]; rfl)
        · split at h
          · exact Or.inl (Except.error.inj h).symm
          · exact Except.noConfusion h

theorem parseLoop_all_blank :
    ∀ (ls : List String) (n : Nat), (∀ raw ∈ ls, pyStrip raw = "") →
      parseLoop n ls = .ok [] := by
  intro ls
  induction ls with
  | nil => intro n _; rfl
  | cons raw rest ih =>
    intro n hb
    have h0 : _parse_line raw n = .ok none :=
      (parse_line_none_iff raw n).mpr (hb raw (List.mem_cons_self raw rest))
    simp [parseLoop, h0, ih (n + 1) (fun x hx => hb x (List.mem_cons_of_mem raw hx))]

theorem parseLoop_first_error :
    ∀ (ls : List String) (n k : Nat) (e : TCError),
      k < ls.length →
      (∀ j, j < k → ∃ v, _parse_line (ls.getD j "") (n + j) = .ok v) →
      _parse_line (ls.getD k "") (n + k) = .error e →
      parseLoop n ls = .error e := by
  intro ls
  induction ls with
  | nil => intro n k e hk _ _; exact absurd hk (Nat.not_lt_zero k)
  | cons raw rest ih =>
    intro n k e hk hprev hfail
    match k with
    | 0 =>
      have h0 : _parse_line raw n = .error e := by
        simpa using hfail
      simp [parseLoop, h0]
    | k + 1 =>
      obtain ⟨v, hv⟩ := hprev 0 (Nat.succ_pos k)
      have hv' : _parse_line raw n = .ok v := by simpa using hv
      have hrest : parseLoop (n + 1) rest = .error e := by
        refine ih (n + 1) k e (by simpa using hk) ?_ ?_
        · intro j hj
          obtain ⟨w, hw⟩ := hprev (j + 1) (Nat.succ_lt_succ hj)
          refine ⟨w, ?_⟩
          have h1 : (raw :: rest).getD (j + 1) "" = rest.getD j "" := rfl
          rw [h1] at hw
          have h2 : n + (j + 1) = n + 1 + j := by omega
          rw [h2] at hw
          exact hw
        · have h1 : (raw :: rest).getD (k + 1) "" = rest.getD k "" := rfl
          have h2 : n + (k + 1) = n + 1 + k := by omega
          rw [h1, h2] at hfail
          exact hfail
      cases v with
      | none => simp [parseLoop, hv', hrest]
      | some r => simp [parseLoop, hv', hrest, Except.map]

theorem parseLoop_length :
    ∀ (ls : List String) (n : Nat) (us : List TrafficRecord),
      parseLoop n ls = .ok us →
      us.length = (ls.filter (fun raw => !(pyStrip raw == ""))).length := by
  intro ls
  induction ls with
  | nil =>
    intro n us h
    simp only [parseLoop] at h
    rw [← Except.ok.inj h]
    rfl
  | cons raw rest ih =>
    intro n us h
    cases hp : _parse_line raw n with
    | error e => rw [parseLoop, hp] at h; exact Except.noConfusion h
    | ok v =>
      cases v with
      | none =>
        have hb : pyStrip raw = "" := (parse_line_none_iff raw n).mp hp
        rw [parseLoop, hp] at h
        rw [List.filter_cons_of_neg (by simp [hb])]
        exact ih (n + 1) us h
      | some r =>
        have hb : ¬ pyStrip raw = "" := by
          intro hc
          rw [(parse_line_none_iff raw n).mpr hc] at hp
          exact Option.noConfusion (Except.ok.inj hp)
        rw [parseLoop, hp] at h
        cases hrest : parseLoop (n + 1) rest with
        | error e => rw [hrest] at h; exact Except.noConfusion h
        | ok us' =>
          rw [hrest] at h
          have h2 : r :: us' = us := Except.ok.inj h
          rw [← h2, List.filter_cons_of_pos (by simp [hb])]
          simp [ih (n + 1) us' hrest]

/-- C3 (amended): a zero or negative top limit makes the streaming facade
`analyse_stream` raise a configuration error before any line is consumed
(given a positive window size, which is validated first); the batch selector
`top_half_hours` performs no such validation (see its counterexample). -/
theorem C3_stream_config_error (lines : List String) (size limit : Int)
    (hl : limit ≤ 0) (hs : 0 < size) :
    analyse_stream lines size limit = .error .topLimitNotPositive := by
  rw [analyse_stream, if_neg (not_le.mpr hs), if_pos hl]

/-- Witness for C3: limit 0 on an input whose lines are never even parsed. -/
theorem C3_witness :
    analyse_stream ["2021-12-01T05:00:00 5", "not a record"] 3 0 =
      .error .topLimitNotPositive :=
  C3_stream_config_error ["2021-12-01T05:00:00 5", "not a record"] 3 0
    (by decide) (by decide)

/-- Counterexample for C3 as stated: the batch form `top_half_hours` does not
raise on a zero or negative limit; it totally returns the Python slice
`sorted(records)[:limit]`, here the empty list for limit 0 and all but the
last sorted entry for limit -1. -/
theorem C3_counterexample :
    top_half_hours [(⟨0, 5⟩ : TrafficRecord)] 0 = [] ∧
      top_half_hours [(⟨0, 5⟩ : TrafficRecord), ⟨1800, 7⟩] (-1) = [⟨1800, 7⟩] := by
  constructor <;> decide

/-- C7: when the first offending line of the input is line k+1 (0-based index
k) and it fails to parse, both `parse_records` and `analyse_stream` abort the
whole run with that same error and return no partial result, and for the
malformed-line error kinds the error carries the 1-based line number k+1 (the
negative-count validation error is the kind that carries no line number). -/
theorem C7_abort_on_first_bad_line (lines : List String) (size limit : Int)
    (k : Nat) (e : TCError) (hs : 0 < size) (hl : 0 < limit)
    (hk : k < lines.length)
    (hprev : ∀ j, j < k → ∃ v, _parse_line (lines.getD j "") (1 + j) = .ok v)
    (hfail : _parse_line (lines.getD k "") (1 + k) = .error e) :
    parse_records lines = .error e ∧ analyse_stream lines size limit = .error e ∧
      (e = .negativeCars ∨ e.lineNumber = some (1 + k)) := by
  have hloop : parseLoop 1 lines = .error e :=
    parseLoop_first_error lines 1 k e hk hprev hfail
  refine ⟨?_, ?_, ?_⟩
  · rw [parse_records, hloop]; rfl
  · rw [analyse_stream_eq_parseLoop lines size limit hs hl, hloop]; rfl
  · exact parse_line_error_shape (lines.getD k "") (1 + k) e hfail

/-- Witness for C7: a valid first line and a malformed second line; the error
is the format error naming line 2. -/
theorem C7_witness :
    parse_records ["2021-12-01T05:00:00 5", "oops"] = .error (.format 2 "oops") ∧
      analyse_stream ["2021-12-01T05:00:00 5", "oops"] 3 3 =
        .error (.format 2 "oops") ∧
      ((TCError.format 2 "oops") = .negativeCars ∨
        (TCError.format 2 "oops").lineNumber = some (1 + 1)) :=
  C7_abort_on_first_bad_line ["2021-12-01T05:00:00 5", "oops"] 3 3 1
    (.format 2 "oops") (by decide) (by decide) (by decide)
    (by
      intro j hj
      have h0 : j = 0 := by omega
      subst h0
      exact ⟨some ⟨1638334800, 5⟩, by decide⟩)
    (by decide)

/-- C8 (amended): a non-blank line whose stripped text contains a single
whitespace-separated field (no whitespace at all) fails with the format
error, a kind distinct from the timestamp error and the count error; a
three-token line is not a format error, because the split keeps the remainder
after the first whitespace run as the count field (see the counterexample). -/
theorem C8_format_error_single_field (raw : String) (n : Nat)
    (hnb : pyStrip raw ≠ "") (hsp : pySplitOnce (pyStrip raw) = none) :
    _parse_line raw n = .error (.format n raw) ∧
      (∀ k t, TCError.format n raw ≠ .badTimestamp k t) ∧
      (∀ k t, TCError.format n raw ≠ .badCount k t) := by
  refine ⟨?_, fun k t => by simp, fun k t => by simp⟩
  unfold _parse_line
  rw [if_neg hnb, hsp]

/-- Witness for C8 at a concrete single-token line. -/
theorem C8_witness :
    _parse_line "garbage" 3 = .error (.format 3 "garbage") ∧
      (∀ k t, TCError.format 3 "garbage" ≠ .badTimestamp k t) ∧
      (∀ k t, TCError.format 3 "garbage" ≠ .badCount k t) :=
  C8_format_error_single_field "garbage" 3 (by decide) (by decide)

/-- Counterexample for C8 as stated: a line of three whitespace-separated
tokens is not reported as a format error; the split succeeds with the
two-token remainder as the count field, which then fails as a count error. -/
theorem C8_counterexample :
    _parse_line "2021-12-01T05:00:00 1 2" 1 = .error (.badCount 1 "1 2") ∧
      TCError.badCount 1 "1 2" ≠ .format 1 "2021-12-01T05:00:00 1 2" := by
  constructor <;> decide

/-- C10: an input consisting only of blank or whitespace-only lines (or no
lines at all) makes `analyse_stream` succeed with total 0, no per-day
entries, no top entries, and an unavailable quietest window. -/
theorem C10_blank_input (lines : List String) (size limit : Int)
    (hs : 0 < size) (hl : 0 < limit)
    (hb : ∀ raw ∈ lines, pyStrip raw = "") :
    analyse_stream lines size limit = .ok ⟨0, [], [], none⟩ := by
  rw [analyse_stream_eq_parseLoop lines size limit hs hl,
    parseLoop_all_blank lines 1 hb]
  simp [Except.map, finalize, initState, pyTake, List.insertionSort]

/-- Witness for C10: an empty line and a whitespace-only line. -/
theorem C10_witness :
    analyse_stream ["", "   "] 3 3 = .ok ⟨0, [], [], none⟩ :=
  C10_blank_input ["", "   "] 3 3 (by decide) (by decide) (by decide)

/-! Stability of the chronological sort: among records with one given
timestamp, sorting by timestamp preserves the input order. -/

theorem filter_insertionSort_ts (t : Int) :
    ∀ l : List TrafficRecord,
      (List.insertionSort leTs l).filter (fun r => decide (r.timestamp = t)) =
        l.filter (fun r => decide (r.timestamp = t)) := by
  intro l
  induction l with
  | nil => rfl
  | cons a l ih =>
    show (List.orderedInsert leTs a (List.insertionSort leTs l)).filter _ = _
    rw [List.orderedInsert_eq_take_drop]
    set S := List.insertionSort leTs l with hS
    set p : TrafficRecord → Bool := fun r => decide (r.timestamp = t) with hp
    set q : TrafficRecord → Bool := fun b => decide ¬ leTs a b with hq
    have hSsplit : S.takeWhile q ++ S.dropWhile q = S := List.takeWhile_append_dropWhile q S
    by_cases pa : a.timestamp = t
    · have htw : (S.takeWhile q).filter p = [] := by
        rw [List.filter_eq_nil_iff]
        intro x hx
        have hqx : q x = true := List.mem_takeWhile_imp hx
        have hlt : x.timestamp < a.timestamp := by
          have : ¬ leTs a x := of_decide_eq_true hqx
          exact lt_of_not_le this
        simp only [hp, decide_eq_true_eq]
        omega
      rw [List.filter_append, htw, List.nil_append,
        List.filter_cons_of_pos (by simp [hp, pa]), List.filter_cons_of_pos (by simp [hp, pa]),
        ← ih]
      conv_rhs => rw [← hSsplit]
      rw [List.filter_append, htw, List.nil_append]
    · rw [List.filter_append, List.filter_cons_of_neg (by simp [hp, pa]),
        List.filter_cons_of_neg (by simp [hp, pa]), ← ih]
      conv_rhs => rw [← hSsplit]
      rw [List.filter_append]

/-- C9: a successful `parse_records` yields a list sorted ascending by
timestamp, in which records sharing a timestamp keep the relative order of
the in-order parsed records (stable sort), and whose length is the number of
non-blank input lines (blank and whitespace-only lines contribute no
record). -/
theorem C9_parse_records_sorted_stable (lines : List String)
    (rs : List TrafficRecord) (h : parse_records lines = .ok rs) :
    List.Sorted leTs rs ∧
      (∀ us, parseLoop 1 lines = .ok us →
        ∀ t, rs.filter (fun r => decide (r.timestamp = t)) =
          us.filter (fun r => decide (r.timestamp = t))) ∧
      rs.length = (lines.filter (fun raw => !(pyStrip raw == ""))).length := by
  rw [parse_records] at h
  cases hu : parseLoop 1 lines with
  | error e => rw [hu] at h; exact Except.noConfusion h
  | ok us =>
    rw [hu] at h
    have hrs : rs = List.insertionSort leTs us := (Except.ok.inj h).symm
    subst hrs
    refine ⟨List.sorted_insertionSort leTs us, ?_, ?_⟩
    · intro us' hus' t
      have heq : us' = us := (Except.ok.inj hus').symm
      subst heq
      exact filter_insertionSort_ts t us'
    · rw [List.length_insertionSort]
      exact parseLoop_length lines 1 us hu

/-- Witness for C9 at a concrete out-of-order input with a blank line. -/
theorem C9_witness :
    List.Sorted leTs [(⟨1638334800, 1⟩ : TrafficRecord), ⟨1638336600, 2⟩] ∧
      (∀ us, parseLoop 1 ["2021-12-01T05:30:00 2", "", "2021-12-01T05:00:00 1"] = .ok us →
        ∀ t, [(⟨1638334800, 1⟩ : TrafficRecord), ⟨1638336600, 2⟩].filter
            (fun r => decide (r.timestamp = t)) =
          us.filter (fun r => decide (r.timestamp = t))) ∧
      [(⟨1638334800, 1⟩ : TrafficRecord), ⟨1638336600, 2⟩].length =
        (["2021-12-01T05:30:00 2", "", "2021-12-01T05:00:00 1"].filter
          (fun raw => !(pyStrip raw == ""))).length :=
  C9_parse_records_sorted_stable ["2021-12-01T05:30:00 2", "", "2021-12-01T05:00:00 1"]
    [⟨1638334800, 1⟩, ⟨1638336600, 2⟩] (by decide)

/-! The window scanner: candidate windows as a list, and how appending one
record to the input extends that list. -/

def takeRight (n : Nat) (l : List α) : List α := l.drop (l.length - n)

/-- The list of candidate windows that `contiguous_windows` yields for a
positive size (the Nat form of the size). -/
def windows (sz : Nat) (records : List TrafficRecord) : List (List TrafficRecord) :=
  (List.range (records.length + 1 - sz)).filterMap (fun start =>
    let w := (records.drop start).take sz
    if chainedB w then some w else none)

theorem contiguous_windows_eq (records : List TrafficRecord) (size : Int)
    (hs : 0 < size) :
    contiguous_windows records size = .ok (windows size.toNat records) := by
  rw [contiguous_windows, if_neg (not_le.mpr hs)]
  rfl

theorem windows_concat (sz : Nat) (p : List TrafficRecord) (r : TrafficRecord) :
    windows sz (p ++ [r]) =
      windows sz p ++
        (if sz ≤ p.length + 1 ∧ chainedB (takeRight sz (p ++ [r])) = true
          then [takeRight sz (p ++ [r])] else []) := by
  by_cases hle : sz ≤ p.length + 1
  · have hlen : (p ++ [r]).length + 1 - sz = (p.length + 1 - sz) + 1 := by
      simp only [List.length_append, List.length_cons, List.length_nil]
      omega
    rw [windows, hlen, List.range_succ, List.filterMap_append]
    congr 1
    · rw [windows]
      apply List.filterMap_congr
      intro i hi
      have hi' : i < p.length + 1 - sz := List.mem_range.mp hi
      have h1 : (p ++ [r]).drop i = p.drop i ++ [r] :=
        List.drop_append_of_le_length (by omega)
      have h2 : ((p.drop i) ++ [r]).take sz = (p.drop i).take sz :=
        List.take_append_of_le_length (by rw [List.length_drop]; omega)
      simp only [h1, h2]
    · have hstart : (p ++ [r]).drop (p.length + 1 - sz) = takeRight sz (p ++ [r]) := by
        rw [takeRight]
        congr 1
        simp only [List.length_append, List.length_cons, List.length_nil]
      have hfull : (takeRight sz (p ++ [r])).take sz = takeRight sz (p ++ [r]) := by
        rw [takeRight]
        apply List.take_of_length_le
        rw [List.length_drop]
        omega
      simp only [List.filterMap_cons, List.filterMap_nil, hfull, hstart]
      by_cases hch : chainedB (takeRight sz (p ++ [r])) = true
      · rw [if_pos hch, if_pos ⟨hle, hch⟩]
      · rw [if_neg hch, if_neg (by intro hc; exact hch hc.2)]
  · have h1 : (p ++ [r]).length + 1 - sz = 0 := by
      simp only [List.length_append, List.length_cons, List.length_nil]
      omega
    have h2 : p.length + 1 - sz = 0 := by omega
    rw [windows, windows, h1, h2, if_neg (by intro hc; exact hle hc.1)]
    rfl

/-- Invariant of the streaming rolling buffer after processing the records
`p`: the buffer is a chained suffix of `p` of length at most `sz`, nonempty
iff `p` is nonempty, and when shorter than `sz` the record of `p` preceding
it (if any) breaks the 30-minute chain. -/
def BufInv (sz : Nat) (p b : List TrafficRecord) : Prop :=
  ∃ q, p = q ++ b ∧ b.length ≤ sz ∧ (b = [] ↔ p = []) ∧ List.Chain' isStep b ∧
    (b.length < sz → q = [] ∨
      ∃ ql bh, q.getLast? = some ql ∧ b.head? = some bh ∧ ¬ isStep ql bh)

theorem bufInv_nil (sz : Nat) : BufInv sz [] [] :=
  ⟨[], rfl, by simp, by simp, List.chain'_nil, fun _ => Or.inl rfl⟩

theorem bufInv_step (size : Int) (hs : 0 < size) (p b : List TrafficRecord)
    (r : TrafficRecord) (h : BufInv size.toNat p b) :
    BufInv size.toNat (p ++ [r]) (stepBuffer size b r) := by
  obtain ⟨q, hpq, hlen, hemp, hchain, hbreak⟩ := h
  have hsz : 1 ≤ size.toNat := by omega
  cases hgl : b.getLast? with
  | none =>
    have hbnil : b = [] := List.getLast?_eq_none_iff.mp hgl
    have hpnil : p = [] := hemp.mp hbnil
    rw [stepBuffer, hgl]
    subst hpnil
    exact ⟨[], by simp, by simpa using hsz, by simp, List.chain'_singleton r,
      fun _ => Or.inl rfl⟩
  | some last =>
    have hbne : b ≠ [] := by
      intro hb; rw [hb] at hgl; exact Option.noConfusion hgl
    rw [stepBuffer, hgl]
    show BufInv size.toNat (p ++ [r])
      (if r.timestamp - last.timestamp = HALF_HOUR then
        if size < ((b ++ [r]).length : Int) then (b ++ [r]).tail else b ++ [r]
      else [r])
    by_cases hdelta : r.timestamp - last.timestamp = HALF_HOUR
    · rw [if_pos hdelta]
      have hchainext : List.Chain' isStep (b ++ [r]) := by
        rw [List.chain'_append]
        refine ⟨hchain, List.chain'_singleton r, ?_⟩
        intro x hx y hy
        rw [Option.mem_def, hgl] at hx
        rw [Option.mem_def, List.head?_cons] at hy
        have hx' : x = last := (Option.some.inj hx).symm
        have hy' : y = r := (Option.some.inj hy).symm
        rw [hx', hy']
        exact hdelta
      by_cases hover : size < ((b ++ [r]).length : Int)
      · rw [if_pos hover]
        have hlb : b.length = size.toNat := by
          simp only [List.length_append, List.length_cons, List.length_nil] at hover
          omega
        obtain ⟨bh, bt, hbeq⟩ : ∃ bh bt, b = bh :: bt := by
          cases b with
          | nil => exact absurd rfl hbne
          | cons x xs => exact ⟨x, xs, rfl⟩
        subst hbeq
        show BufInv size.toNat (p ++ [r]) (bt ++ [r])
        refine ⟨q ++ [bh], ?_, ?_, ?_, ?_, ?_⟩
        · rw [hpq]; simp
        · simp only [List.length_append, List.length_cons, List.length_nil] at hlb ⊢
          omega
        · simp
        · have := hchainext.tail
          simpa using this
        · intro hlt
          exfalso
          simp only [List.length_append, List.length_cons, List.length_nil] at hlt hlb
          omega
      · rw [if_neg hover]
        refine ⟨q, ?_, ?_, ?_, hchainext, ?_⟩
        · rw [hpq, List.append_assoc]
        · simp only [List.length_append, List.length_cons, List.length_nil] at hover ⊢
          omega
        · simp
        · intro hlt
          have hlt' : b.length < size.toNat := by
            simp only [List.length_append, List.length_cons, List.length_nil] at hlt
            omega
          rcases hbreak hlt' with hq | ⟨ql, bh, hql, hbh, hstep⟩
          · exact Or.inl hq
          · refine Or.inr ⟨ql, bh, hql, ?_, hstep⟩
            rw [List.head?_append, hbh]
            rfl
    · rw [if_neg hdelta]
      refine ⟨p, by simp, by simpa using hsz, by simp, List.chain'_singleton r, ?_⟩
      intro _
      refine Or.inr ⟨last, r, ?_, rfl, hdelta⟩
      rw [hpq, List.getLast?_append, hgl]
      rfl

theorem bufInv_emission (sz : Nat) (hsz : 0 < sz) (p b : List TrafficRecord)
    (h : BufInv sz p b) :
    (b.length = sz ↔ (sz ≤ p.length ∧ chainedB (takeRight sz p) = true)) ∧
      (b.length = sz → b = takeRight sz p) := by
  obtain ⟨q, hpq, hlen, hemp, hchain, hbreak⟩ := h
  have heq : b.length = sz → b = takeRight sz p := by
    intro hl
    rw [hpq, takeRight, List.length_append, hl]
    have h2 : q.length + sz - sz = q.length := by omega
    rw [h2, List.drop_left]
  refine ⟨⟨?_, ?_⟩, heq⟩
  · intro hl
    have hb := heq hl
    refine ⟨by rw [hpq, List.length_append]; omega, ?_⟩
    rw [← hb]
    exact (chainedB_iff b).mpr hchain
  · rintro ⟨hplen, hch⟩
    by_contra hne
    have hlt : b.length < sz := lt_of_le_of_ne hlen hne
    rcases hbreak hlt with hq | ⟨ql, bh, hql, hbh, hstep⟩
    · subst hq
      rw [List.nil_append] at hpq
      subst hpq
      omega
    · have hqne : q ≠ [] := by
        intro hqq; rw [hqq] at hql; exact Option.noConfusion hql
      have hjle : p.length - sz ≤ q.length := by
        rw [hpq, List.length_append]; omega
      have hdec : takeRight sz p = q.drop (p.length - sz) ++ b := by
        have hlist : p.drop (p.length - sz) = (q ++ b).drop (p.length - sz) := by
          rw [← hpq]
        rw [takeRight, hlist]
        exact List.drop_append_of_le_length hjle
      have hchainTR : List.Chain' isStep (q.drop (p.length - sz) ++ b) := by
        rw [← hdec]
        exact (chainedB_iff _).mp hch
      have hrel := (List.chain'_append.mp hchainTR).2.2
      have hdqlen : (q.drop (p.length - sz)).length = q.length - (p.length - sz) :=
        List.length_drop _ _
      have hdqne : q.drop (p.length - sz) ≠ [] := by
        intro hd
        rw [hd] at hdqlen
        rw [hpq, List.length_append] at hdqlen hplen
        simp at hdqlen
        omega
      have hgl2 : (q.drop (p.length - sz)).getLast? = some ql := by
        have hqsplit : q.take (p.length - sz) ++ q.drop (p.length - sz) = q :=
          List.take_append_drop _ q
        rw [← hqsplit, List.getLast?_append] at hql
        cases hdq : (q.drop (p.length - sz)).getLast? with
        | none => exact absurd (List.getLast?_eq_none_iff.mp hdq) hdqne
        | some x =>
          rw [hdq] at hql
          exact hql
      exact hstep (hrel ql (Option.mem_def.mpr hgl2) bh (Option.mem_def.mpr hbh))

theorem foldl_bufbest_spec (size : Int) (hs : 0 < size) (us : List TrafficRecord) :
    BufInv size.toNat us (us.foldl (stepBufBest size) ([], none)).1 ∧
      (us.foldl (stepBufBest size) ([], none)).2 =
        (windows size.toNat us).foldl considerWindow none := by
  induction us using List.reverseRecOn with
  | nil =>
    refine ⟨bufInv_nil size.toNat, ?_⟩
    have h0 : 1 - size.toNat = 0 := by omega
    simp [windows, h0]
  | append_singleton p r ih =>
    obtain ⟨hinv, hbest⟩ := ih
    rw [List.foldl_append, List.foldl_cons, List.foldl_nil]
    have hinv' : BufInv size.toNat (p ++ [r])
        (stepBuffer size (p.foldl (stepBufBest size) ([], none)).1 r) :=
      bufInv_step size hs p _ r hinv
    have hem := bufInv_emission size.toNat (by omega) (p ++ [r]) _ hinv'
    have hlenpr : (p ++ [r]).length = p.length + 1 := by simp
    rw [hlenpr] at hem
    constructor
    · simp only [stepBufBest]
      exact hinv'
    · simp only [stepBufBest]
      rw [windows_concat, List.foldl_append, ← hbest]
      by_cases hlen :
          (stepBuffer size (p.foldl (stepBufBest size) ([], none)).1 r).length = size.toNat
      · have hcond :
            ((stepBuffer size (p.foldl (stepBufBest size) ([], none)).1 r).length : Int)
              = size := by omega
        rw [if_pos hcond, if_pos (hem.1.mp hlen), List.foldl_cons, List.foldl_nil,
          ← hem.2 hlen]
      · have hcond :
            ¬ ((stepBuffer size (p.foldl (stepBufBest size) ([], none)).1 r).length : Int)
              = size := by omega
        rw [if_neg hcond, if_neg (fun hc => hlen (hem.1.mpr hc)), List.foldl_nil]

theorem stream_best_eq_windows (size limit : Int) (hs : 0 < size)
    (us : List TrafficRecord) :
    (us.foldl (stepRecord size limit) initState).best =
      (windows size.toNat us).foldl considerWindow none := by
  have h := foldl_stepRecord_bufbest size limit us initState
  have h2 := (foldl_bufbest_spec size hs us).2
  have hb : (us.foldl (stepRecord size limit) initState).best =
      (us.foldl (stepBufBest size) ([], none)).2 := by
    have h3 := congrArg Prod.snd h
    simpa using h3
  rw [hb, h2]

theorem quietest_period_eq_fold (records : List TrafficRecord) (size : Int)
    (hs : 0 < size) :
    quietest_period records size =
      (match (windows size.toNat records).foldl considerWindow none with
        | none => .error .noWindow
        | some (w, _) => .ok w) := by
  unfold quietest_period
  rw [contiguous_windows_eq records size hs]
  rfl

/-! The best-window fold: its result carries the correct sum, comes from the
candidate list, and is minimal with earliest-start tie-breaking. -/

theorem considerWindow_sum (acc : Option (List TrafficRecord × Int))
    (v : List TrafficRecord)
    (hacc : ∀ aw bt, acc = some (aw, bt) → bt = sumCars aw) :
    ∀ aw bt, considerWindow acc v = some (aw, bt) → bt = sumCars aw := by
  intro aw bt h
  cases acc with
  | none =>
    simp only [considerWindow, Option.some.injEq, Prod.mk.injEq] at h
    rw [← h.1, ← h.2]
  | some p =>
    obtain ⟨a, s⟩ := p
    simp only [considerWindow] at h
    split at h
    · simp only [Option.some.injEq, Prod.mk.injEq] at h
      rw [← h.1, ← h.2]
    · simp only [Option.some.injEq, Prod.mk.injEq] at h
      rw [← h.1, ← h.2]
      exact hacc a s rfl

theorem considerWindow_fold_sum :
    ∀ (ws : List (List TrafficRecord)) (acc : Option (List TrafficRecord × Int)),
      (∀ aw bt, acc = some (aw, bt) → bt = sumCars aw) →
      ∀ w t, ws.foldl considerWindow acc = some (w, t) →
        t = sumCars w ∧ (acc = some (w, t) ∨ w ∈ ws) := by
  intro ws
  induction ws with
  | nil =>
    intro acc hacc w t h
    rw [List.foldl_nil] at h
    exact ⟨hacc w t h, Or.inl h⟩
  | cons v rest ih =>
    intro acc hacc w t h
    rw [List.foldl_cons] at h
    have hacc2 := considerWindow_sum acc v hacc
    obtain ⟨hsum, hmem⟩ := ih (considerWindow acc v) hacc2 w t h
    refine ⟨hsum, ?_⟩
    rcases hmem with hca | hmem
    · cases acc with
      | none =>
        simp only [considerWindow, Option.some.injEq, Prod.mk.injEq] at hca
        exact Or.inr (by rw [← hca.1]; exact List.mem_cons_self v rest)
      | some p =>
        obtain ⟨a, s⟩ := p
        simp only [considerWindow] at hca
        split at hca
        · simp only [Option.some.injEq, Prod.mk.injEq] at hca
          exact Or.inr (by rw [← hca.1]; exact List.mem_cons_self v rest)
        · exact Or.inl hca
    · exact Or.inr (List.mem_cons_of_mem v hmem)

theorem considerWindow_fold_dom :
    ∀ (ws : List (List TrafficRecord)) (a : List TrafficRecord) (s : Int)
      (w : List TrafficRecord) (t : Int),
      ws.foldl considerWindow (some (a, s)) = some (w, t) →
      t ≤ s ∧ (t = s → headTs w ≤ headTs a) := by
  intro ws
  induction ws with
  | nil =>
    intro a s w t h
    rw [List.foldl_nil] at h
    simp only [Option.some.injEq, Prod.mk.injEq] at h
    obtain ⟨h1, h2⟩ := h
    subst h1
    subst h2
    exact ⟨le_refl _, fun _ => le_refl _⟩
  | cons v rest ih =>
    intro a s w t h
    rw [List.foldl_cons] at h
    simp only [considerWindow] at h
    split at h
    · rename_i hcond
      obtain ⟨ht, hh⟩ := ih v (sumCars v) w t h
      rcases hcond with hlt | ⟨heq, hht⟩
      · refine ⟨le_trans ht hlt.le, fun hts => ?_⟩
        exfalso
        have h2 : t < s := lt_of_le_of_lt ht hlt
        omega
      · refine ⟨heq ▸ ht, fun hts => ?_⟩
        have hwv : headTs w ≤ headTs v := hh (by omega)
        exact le_trans hwv hht.le
    · exact ih a s w t h

theorem considerWindow_fold_min :
    ∀ (ws : List (List TrafficRecord)) (acc : Option (List TrafficRecord × Int)),
      (∀ aw bt, acc = some (aw, bt) → bt = sumCars aw) →
      ∀ w t, ws.foldl considerWindow acc = some (w, t) →
        ∀ w2 ∈ ws, t ≤ sumCars w2 ∧ (sumCars w2 = t → headTs w ≤ headTs w2) := by
  intro ws
  induction ws with
  | nil =>
    intro acc hacc w t h w2 hw2
    exact absurd hw2 (List.not_mem_nil w2)
  | cons v rest ih =>
    intro acc hacc w t h w2 hw2
    rw [List.foldl_cons] at h
    have hacc2 := considerWindow_sum acc v hacc
    rcases List.mem_cons.mp hw2 with hv | hmem
    · subst hv
      cases hca : considerWindow acc w2 with
      | none =>
        exfalso
        cases acc with
        | none => simp [considerWindow] at hca
        | some p =>
          obtain ⟨a, s⟩ := p
          simp only [considerWindow] at hca
          split at hca <;> exact Option.noConfusion hca
      | some p =>
        obtain ⟨a2, s2⟩ := p
        rw [hca] at h
        have hdom := considerWindow_fold_dom rest a2 s2 w t h
        have hkey : s2 ≤ sumCars w2 ∧ (s2 = sumCars w2 → headTs a2 ≤ headTs w2) := by
          cases acc with
          | none =>
            simp only [considerWindow, Option.some.injEq, Prod.mk.injEq] at hca
            obtain ⟨h1, h2⟩ := hca
            subst h1
            subst h2
            exact ⟨le_refl _, fun _ => le_refl _⟩
          | some p0 =>
            obtain ⟨a0, s0⟩ := p0
            simp only [considerWindow] at hca
            split at hca
            · simp only [Option.some.injEq, Prod.mk.injEq] at hca
              obtain ⟨h1, h2⟩ := hca
              subst h1
              subst h2
              exact ⟨le_refl _, fun _ => le_refl _⟩
            · rename_i hcond
              push_neg at hcond
              simp only [Option.some.injEq, Prod.mk.injEq] at hca
              obtain ⟨h1, h2⟩ := hca
              subst h1
              subst h2
              exact ⟨hcond.1, fun hts => hcond.2 hts.symm⟩
        obtain ⟨hd1, hd2⟩ := hdom
        refine ⟨le_trans hd1 hkey.1, fun hvt => ?_⟩
        have hs2 : s2 = t := by omega
        have hwa : headTs w ≤ headTs a2 := hd2 hs2.symm
        have hav : headTs a2 ≤ headTs w2 := hkey.2 (by omega)
        exact le_trans hwa hav
    · exact ih (considerWindow acc v) hacc2 w t h w2 hmem

theorem mem_windows (sz : Nat) (records : List TrafficRecord)
    (w : List TrafficRecord) (hw : w ∈ windows sz records) :
    w.length = sz ∧ List.Chain' isStep w := by
  rw [windows] at hw
  obtain ⟨start, hstart, hfw⟩ := List.mem_filterMap.mp hw
  have hstart2 : start < records.length + 1 - sz := List.mem_range.mp hstart
  simp only [] at hfw
  by_cases hch : chainedB ((records.drop start).take sz) = true
  · rw [if_pos hch] at hfw
    have hweq : w = (records.drop start).take sz := (Option.some.inj hfw).symm
    subst hweq
    refine ⟨?_, (chainedB_iff _).mp hch⟩
    rw [List.length_take, List.length_drop]
    omega
  · rw [if_neg hch] at hfw
    exact Option.noConfusion hfw

/-- C2: for a record sequence sorted ascending by timestamp and a positive
size, a window returned by `quietest_period` has exactly `size` records, each
consecutive pair exactly 30 minutes apart, and among the contiguous windows
that `contiguous_windows` yields, none has a strictly smaller summed count
and every one with an equal sum starts no earlier. -/
theorem C2_quietest_period_correct (records : List TrafficRecord) (size : Int)
    (w : List TrafficRecord) (hsorted : List.Sorted leTs records) (hs : 0 < size)
    (hq : quietest_period records size = .ok w) :
    w.length = size.toNat ∧ List.Chain' isStep w ∧
      (∀ ws, contiguous_windows records size = .ok ws →
        ∀ w2 ∈ ws, sumCars w ≤ sumCars w2 ∧
          (sumCars w2 = sumCars w → headTs w ≤ headTs w2)) := by
  rw [quietest_period_eq_fold records size hs] at hq
  cases hfold : (windows size.toNat records).foldl considerWindow none with
  | none => rw [hfold] at hq; exact Except.noConfusion hq
  | some p =>
    obtain ⟨w0, t⟩ := p
    rw [hfold] at hq
    have hw0 : w0 = w := Except.ok.inj hq
    subst hw0
    have hsum := considerWindow_fold_sum (windows size.toNat records) none
      (fun aw bt h => Option.noConfusion h) w0 t hfold
    have hmem : w0 ∈ windows size.toNat records := by
      rcases hsum.2 with h | h
      · exact absurd h (by simp)
      · exact h
    have hmw := mem_windows size.toNat records w0 hmem
    refine ⟨hmw.1, hmw.2, ?_⟩
    intro ws hws w2 hw2
    rw [contiguous_windows_eq records size hs] at hws
    have hws2 : ws = windows size.toNat records := (Except.ok.inj hws).symm
    subst hws2
    have hmin := considerWindow_fold_min (windows size.toNat records) none
      (fun aw bt h => Option.noConfusion h) w0 t hfold w2 hw2
    constructor
    · rw [← hsum.1]
      exact hmin.1
    · intro h2
      refine hmin.2 ?_
      rw [← hsum.1] at h2
      exact h2

/-- Witness for C2 at a concrete sorted input with two candidate windows. -/
theorem C2_witness :
    [(⟨0, 3⟩ : TrafficRecord), ⟨1800, 1⟩, ⟨3600, 2⟩].length = (3 : Int).toNat ∧
      List.Chain' isStep [(⟨0, 3⟩ : TrafficRecord), ⟨1800, 1⟩, ⟨3600, 2⟩] ∧
      (∀ ws, contiguous_windows
          [(⟨0, 3⟩ : TrafficRecord), ⟨1800, 1⟩, ⟨3600, 2⟩, ⟨5400, 5⟩] 3 = .ok ws →
        ∀ w2 ∈ ws,
          sumCars [(⟨0, 3⟩ : TrafficRecord), ⟨1800, 1⟩, ⟨3600, 2⟩] ≤ sumCars w2 ∧
            (sumCars w2 = sumCars [(⟨0, 3⟩ : TrafficRecord), ⟨1800, 1⟩, ⟨3600, 2⟩] →
              headTs [(⟨0, 3⟩ : TrafficRecord), ⟨1800, 1⟩, ⟨3600, 2⟩] ≤ headTs w2)) :=
  C2_quietest_period_correct [⟨0, 3⟩, ⟨1800, 1⟩, ⟨3600, 2⟩, ⟨5400, 5⟩] 3
    [⟨0, 3⟩, ⟨1800, 1⟩, ⟨3600, 2⟩] (by decide) (by decide) (by decide)

/-- C4: on a record sequence with zero candidate contiguous windows, the
direct low-level query `quietest_period` raises the no-window error, while
the streaming facade `analyse_stream` on lines parsing to that sequence
completes successfully with an unavailable (`none`) quietest window. -/
theorem C4_no_window_facades (records : List TrafficRecord) (lines : List String)
    (size limit : Int) (hs : 0 < size) (hl : 0 < limit)
    (hnone : contiguous_windows records size = .ok [])
    (hparse : parseLoop 1 lines = .ok records) :
    quietest_period records size = .error .noWindow ∧
      ∃ res, analyse_stream lines size limit = .ok res ∧
        res.quietest_window = none := by
  have hw : windows size.toNat records = [] := by
    rw [contiguous_windows_eq records size hs] at hnone
    exact Except.ok.inj hnone
  constructor
  · rw [quietest_period_eq_fold records size hs, hw]
    rfl
  · refine ⟨finalize limit (records.foldl (stepRecord size limit) initState), ?_, ?_⟩
    · rw [analyse_stream_eq_parseLoop lines size limit hs hl, hparse]
      rfl
    · show ((records.foldl (stepRecord size limit) initState).best).map (·.1) = none
      rw [stream_best_eq_windows size limit hs records, hw]
      rfl

/-- Witness for C4: two records one hour apart, size 3, no candidate window. -/
theorem C4_witness :
    quietest_period [(⟨0, 1⟩ : TrafficRecord), ⟨3600, 2⟩] 3 = .error .noWindow ∧
      ∃ res, analyse_stream ["1970-01-01T00:00:00 1", "1970-01-01T01:00:00 2"] 3 3 =
          .ok res ∧ res.quietest_window = none :=
  C4_no_window_facades [⟨0, 1⟩, ⟨3600, 2⟩]
    ["1970-01-01T00:00:00 1", "1970-01-01T01:00:00 2"] 3 3
    (by decide) (by decide) (by decide) (by decide)

/-- C1 (amended): when every line parses and the parsed records arrive in
chronologically non-decreasing order, the streaming facade produces exactly
the batch pipeline's results: same total, per-day totals, top half hours, and
quietest window (the no-window outcome mapped to `none`).  For out-of-order
input the quietest window can differ (see the counterexample). -/
theorem C1_stream_matches_batch (lines : List String) (size limit : Int)
    (us : List TrafficRecord) (hs : 0 < size) (hl : 0 < limit)
    (hparse : parseLoop 1 lines = .ok us) (hsorted : List.Sorted leTs us) :
    ∃ res, analyse_stream lines size limit = .ok res ∧
      parse_records lines = .ok us ∧
      res.total = total_cars us ∧
      res.per_day = totals_by_day us ∧
      res.top_half_hours = top_half_hours us limit ∧
      res.quietest_window = (quietest_period us size).toOption := by
  have hpr : parse_records lines = .ok us := by
    rw [parse_records, hparse]
    simp [Except.map, List.Sorted.insertionSort_eq hsorted]
  refine ⟨finalize limit (us.foldl (stepRecord size limit) initState), ?_, hpr,
    ?_, ?_, ?_, ?_⟩
  · rw [analyse_stream_eq_parseLoop lines size limit hs hl, hparse]
    rfl
  · show (us.foldl (stepRecord size limit) initState).total = total_cars us
    rw [foldl_stepRecord_total]
    rfl
  · show List.insertionSort lePair (us.foldl (stepRecord size limit) initState).daily
        = totals_by_day us
    rw [foldl_stepRecord_daily]
    rfl
  · show pyTake limit (us.foldl (stepRecord size limit) initState).top
        = top_half_hours us limit
    rw [foldl_stepRecord_top]
    show pyTake limit (us.foldl (stepTop limit) []) = top_half_hours us limit
    rw [foldl_stepTop_eq limit hl us, top_half_hours, pyTake, if_pos hl.le, pyTake,
      if_pos hl.le, List.take_take, min_self]
  · show ((us.foldl (stepRecord size limit) initState).best).map (·.1)
        = (quietest_period us size).toOption
    rw [stream_best_eq_windows size limit hs us, quietest_period_eq_fold us size hs]
    cases (windows size.toNat us).foldl considerWindow none with
    | none => rfl
    | some p =>
      obtain ⟨w, t⟩ := p
      rfl

/-- Witness for C1 at a concrete chronologically ordered two-line input. -/
theorem C1_witness :
    ∃ res, analyse_stream ["2021-12-01T05:00:00 5", "2021-12-01T05:30:00 2"] 3 3 =
        .ok res ∧
      parse_records ["2021-12-01T05:00:00 5", "2021-12-01T05:30:00 2"] =
        .ok [⟨1638334800, 5⟩, ⟨1638336600, 2⟩] ∧
      res.total = total_cars [⟨1638334800, 5⟩, ⟨1638336600, 2⟩] ∧
      res.per_day = totals_by_day [⟨1638334800, 5⟩, ⟨1638336600, 2⟩] ∧
      res.top_half_hours = top_half_hours [⟨1638334800, 5⟩, ⟨1638336600, 2⟩] 3 ∧
      res.quietest_window =
        (quietest_period [⟨1638334800, 5⟩, ⟨1638336600, 2⟩] 3).toOption :=
  C1_stream_matches_batch ["2021-12-01T05:00:00 5", "2021-12-01T05:30:00 2"] 3 3
    [⟨1638334800, 5⟩, ⟨1638336600, 2⟩] (by decide) (by decide) (by decide) (by decide)

/-- Counterexample for C1 as stated: on lines in reverse chronological order
(three adjacent 30-minute slots), the batch pipeline finds a quietest window
after sorting, but the streaming facade, whose rolling buffer resets on every
delta other than plus 30 minutes, reports the quietest window as unavailable,
so the two pipelines disagree on that input. -/
theorem C1_counterexample :
    (analyse_stream
        ["2021-12-01T01:00:00 1", "2021-12-01T00:30:00 1", "2021-12-01T00:00:00 1"]
        3 3).map (fun res => res.quietest_window) = .ok none ∧
      parse_records
          ["2021-12-01T01:00:00 1", "2021-12-01T00:30:00 1",
            "2021-12-01T00:00:00 1"] =
        .ok [⟨1638316800, 1⟩, ⟨1638318600, 1⟩, ⟨1638320400, 1⟩] ∧
      quietest_period [⟨1638316800, 1⟩, ⟨1638318600, 1⟩, ⟨1638320400, 1⟩] 3 =
        .ok [⟨1638316800, 1⟩, ⟨1638318600, 1⟩, ⟨1638320400, 1⟩] ∧
      (some [(⟨1638316800, 1⟩ : TrafficRecord), ⟨1638318600, 1⟩, ⟨1638320400, 1⟩] ≠
        (none : Option (List TrafficRecord))) := by
  refine ⟨by decide, by decide, by decide, by decide⟩
